import Mathlib

/-!
Verification of the Google Drive scanner backend (`backend/app.py`).

The development embeds the two algorithmic cores of the application:

* the recursive paginated tree walk `list_files` (embedded as `listFilesGo`
  together with the per-page helper `pageFilesWith`, and an instrumented
  variant `listTrace` recording the sequence of listing requests), and
* the background job lifecycle `process_scan` together with the HTTP-facing
  queries `scan_folder` (submit), `get_scan_status` and `download_results`.

The remote Drive listing API is abstracted as a `Drive`: a function from a
folder id and a page index (the continuation token) to either a page of file
metadata plus a has-more flag, or a failure.  External collaborators
(credential store, OAuth flow construction, service building, CSV file I/O
outcome) are abstracted into an `Env` record consumed by `processScan`.
Recursion into the remote hierarchy is bounded by an explicit fuel parameter;
running out of fuel is mapped to a walk failure, matching a RecursionError in
the Python source.
-/

/-- Metadata of one remote file or folder, as returned by the listing API
(fields `id, name, mimeType, size` requested in `list_files`). -/
structure GFile where
  id : String
  name : String
  mimeType : String
  size : Option String
deriving DecidableEq

/-- The flattened per-entry record built by `list_files` (the `file_info`
dictionary / the `FileInfo` pydantic model). -/
structure FileInfo where
  name : String
  link : String
  size : String
  file_type : String
  entire_folder_path : String
deriving DecidableEq

/-- The mime type tag discriminating folders. -/
def folderMime : String := "application/vnd.google-apps.folder"

/-- Mirrors `get_drive_link`. -/
def getDriveLink (f : GFile) : String :=
  "https://drive.google.com/file/d/" ++ f.id ++ "/view?usp=drive_link"

/-- The `file_info` dictionary built for each listed child in `list_files`. -/
def mkFileInfo (f : GFile) (currentPath : String) : FileInfo :=
  { name := f.name
    entire_folder_path := currentPath
    file_type := f.mimeType
    link := getDriveLink f
    size := f.size.getD "N/A" }

/-- Mirrors the `new_path` computation in `list_files`:
`file.name if not current_path else current_path + "/" + file.name`. -/
def joinPath (currentPath name : String) : String :=
  if currentPath = "" then name else currentPath ++ "/" ++ name

/-- Outcome of one paginated listing request: a page of files plus a flag
telling whether a `nextPageToken` was present, or a raised error. -/
inductive ListResp where
  | ok (files : List GFile) (hasNext : Bool)
  | err (msg : String)
deriving DecidableEq

/-- The abstract remote listing API: maps a folder id and a page index (the
continuation token, with `0` standing for "no token yet") to a response. -/
structure Drive where
  pages : String → Nat → ListResp

/-- The body of the `for file in files` loop of `list_files`: emit one
`FileInfo` per child and, when the child is a folder, immediately extend the
results with the recursive listing of that child.  The recursive walk is
passed in as `recurse` (taking the child folder id and the new path). -/
def pageFilesWith (recurse : String → String → Except String (List FileInfo)) :
    List GFile → String → Except String (List FileInfo)
  | [], _ => .ok []
  | f :: fs, currentPath =>
    let fi := mkFileInfo f currentPath
    if f.mimeType = folderMime then
      match recurse f.id (joinPath currentPath f.name) with
      | .error m => .error m
      | .ok sub =>
        match pageFilesWith recurse fs currentPath with
        | .error m => .error m
        | .ok rest => .ok (fi :: (sub ++ rest))
    else
      match pageFilesWith recurse fs currentPath with
      | .error m => .error m
      | .ok rest => .ok (fi :: rest)

/-- Embedding of `list_files`: the `while True` pagination loop.  Each
iteration issues one listing request for `(folderId, pageIdx)`, processes the
returned page (descending into child folders inline, via `pageFilesWith`),
and then moves on to the next page while a continuation token is present.
`fuel` bounds the recursion; exhausting it is a walk failure (the analogue of
a RecursionError on a pathological hierarchy). -/
def listFilesGo (D : Drive) : Nat → String → String → Nat → Except String (List FileInfo)
  | 0, _, _, _ => .error "maximum recursion depth exceeded"
  | fuel + 1, folderId, currentPath, pageIdx =>
    match D.pages folderId pageIdx with
    | .err m => .error m
    | .ok files hasNext =>
      match pageFilesWith (fun fid newPath => listFilesGo D fuel fid newPath 0) files currentPath with
      | .error m => .error m
      | .ok entries =>
        if hasNext then
          match listFilesGo D fuel folderId currentPath (pageIdx + 1) with
          | .error m => .error m
          | .ok rest => .ok (entries ++ rest)
        else .ok entries

/-- Instrumented variant of the page-loop body: returns the sequence of
listing requests `(folderId, pageIndex)` issued while processing the page's
children, together with a success flag (`false` once a request has failed,
aborting the walk). -/
def pageTraceWith (recurse : String → String → List (String × Nat) × Bool) :
    List GFile → String → List (String × Nat) × Bool
  | [], _ => ([], true)
  | f :: fs, currentPath =>
    if f.mimeType = folderMime then
      match recurse f.id (joinPath currentPath f.name) with
      | (t, false) => (t, false)
      | (t, true) =>
        match pageTraceWith recurse fs currentPath with
        | (t2, b) => (t ++ t2, b)
    else pageTraceWith recurse fs currentPath

/-- Instrumented variant of `list_files` recording, in order, every listing
request `(folderId, pageIndex)` issued during the walk, with a success flag. -/
def listTrace (D : Drive) : Nat → String → String → Nat → List (String × Nat) × Bool
  | 0, _, _, _ => ([], false)
  | fuel + 1, folderId, currentPath, pageIdx =>
    match D.pages folderId pageIdx with
    | .err _ => ([(folderId, pageIdx)], false)
    | .ok files hasNext =>
      match pageTraceWith (fun fid newPath => listTrace D fuel fid newPath 0) files currentPath with
      | (t, false) => ((folderId, pageIdx) :: t, false)
      | (t, true) =>
        if hasNext then
          match listTrace D fuel folderId currentPath (pageIdx + 1) with
          | (t2, b) => ((folderId, pageIdx) :: (t ++ t2), b)
        else ((folderId, pageIdx) :: t, true)

/-- The CSV header row written by `export_to_csv`. -/
def csvHeader : List String := ["name", "link", "size", "file_type", "entire_folder_path"]

/-- One CSV data row, in the field order of `export_to_csv`. -/
def csvRow (f : FileInfo) : List String :=
  [f.name, f.link, f.size, f.file_type, f.entire_folder_path]

/-- Embedding of `export_to_csv`: the produced artifact is the header row
followed by one data row per walk entry, in order. -/
def exportToCsv (files : List FileInfo) : List (List String) :=
  csvHeader :: files.map csvRow

/-- A job record: the `scan_jobs[job_id]` dictionary.  `authorization_url`
and `file_count` model the optional keys that are present only after the
corresponding `update` calls in `process_scan`. -/
structure Job where
  status : String
  message : String
  progress : Nat
  authorization_url : Option String
  file_count : Option Nat
deriving DecidableEq

/-- The record `process_scan` installs as its first statement. -/
def initialJob : Job :=
  { status := "processing", message := "Starting scan", progress := 0
    authorization_url := none, file_count := none }

/-- External collaborators of one execution of `process_scan`:
whether `credentials_store` holds a cached credential, the outcome of
building the OAuth flow and its authorization URL, the outcome of building
the Drive service from the stored credential, the remote listing API, the
recursion bound, and the outcome of writing the CSV file (`none` = success;
`some (msg, leftover)` = raised error, with `leftover` the rows left on
disk by the interrupted write). -/
structure Env where
  hasCredential : Bool
  oauthFlow : Except String String
  buildService : Except String Unit
  drive : Drive
  fuel : Nat
  exportErr : Option (String × List (List String))

/-- The record after `scan_jobs[job_id]["message"] = "Scanning Google Drive"`. -/
def scanningJob : Job := { initialJob with message := "Scanning Google Drive" }

/-- The record after `scan_jobs[job_id]["progress"] = 10`. -/
def scanningJob10 : Job := { scanningJob with progress := 10 }

/-- The record after `scan_jobs[job_id]["message"] = "Exporting results to CSV"`. -/
def exportingJob : Job := { scanningJob10 with message := "Exporting results to CSV" }

/-- The record after `scan_jobs[job_id]["progress"] = 90`. -/
def exportingJob90 : Job := { exportingJob with progress := 90 }

/-- The `update` performed by the `except` handler of `process_scan`: the
status becomes `failed` with an error message, all other fields are kept. -/
def failedJob (base : Job) (e : String) : Job :=
  { base with status := "failed", message := "Error: " ++ e }

/-- The `update` performed when no credential is cached: status
`auth_required` plus the freshly generated authorization URL; the other
fields (in particular `progress`) are kept. -/
def authJob (u : String) : Job :=
  { initialJob with status := "auth_required", message := "Authentication required",
                    authorization_url := some u }

/-- The final `update` of a successful scan of `n` entries. -/
def completedJob (n : Nat) : Job :=
  { exportingJob90 with status := "completed",
                        message := "Found " ++ toString n ++ " files and folders",
                        progress := 100, file_count := some n }

/-- Embedding of `process_scan` as the sequence of states the job record
goes through, paired with the CSV artifact written for this job id (if any).
Each list element is the job record after one mutation in the source; the
final element is the record left behind when the routine returns.  Any
exception inside the `try` block is caught at the routine boundary and
becomes a `failed` record that keeps all previously written fields. -/
def processScan (fid : String) (env : Env) : List Job × Option (List (List String)) :=
  let j0 := initialJob
  if env.hasCredential = false then
    match env.oauthFlow with
    | .error e => ([j0, failedJob j0 e], none)
    | .ok url => ([j0, authJob url], none)
  else
    match env.buildService with
    | .error e => ([j0, failedJob j0 e], none)
    | .ok _ =>
      match listFilesGo env.drive env.fuel fid "" 0 with
      | .error e => ([j0, scanningJob, scanningJob10, failedJob scanningJob10 e], none)
      | .ok files =>
        match env.exportErr with
        | some pe =>
          ([j0, scanningJob, scanningJob10, exportingJob, exportingJob90,
            failedJob exportingJob90 pe.1], some pe.2)
        | none =>
          ([j0, scanningJob, scanningJob10, exportingJob, exportingJob90,
            completedJob files.length], some (exportToCsv files))

/-- The statuses the job record of one `process_scan` execution goes through. -/
def scanStatuses (fid : String) (env : Env) : List String :=
  ((processScan fid env).1).map Job.status

/-- The shared in-memory state: the `scan_jobs` map and the CSV files on
disk, keyed by job id (the file `scan_results_{job_id}.csv`). -/
structure SysState where
  scan_jobs : List (String × Job)
  artifacts : List (String × List (List String))

/-- Looks a job up in `scan_jobs`. -/
def jobOf (s : SysState) (jid : String) : Option Job := s.scan_jobs.lookup jid

/-- Whether the CSV artifact for a job id exists, and its rows. -/
def artifactOf (s : SysState) (jid : String) : Option (List (List String)) :=
  s.artifacts.lookup jid

/-- The response body of `POST /api/scan`. -/
structure ScanResponse where
  job_id : String
  message : String
deriving DecidableEq

/-- Embedding of `scan_folder` (submit): generates a job id (passed in as
`jid`, standing for `uuid.uuid4()`), schedules `process_scan` as a background
task that runs only after the response has been sent, and returns
immediately.  Note the state is returned unchanged: `scan_folder` itself
never touches `scan_jobs`. -/
def scanFolder (s : SysState) (jid folderId : String) : SysState × ScanResponse :=
  (s, { job_id := jid, message := "Scan started" })

/-- An `HTTPException` with its status code and detail string. -/
structure HErr where
  status_code : Nat
  detail : String
deriving DecidableEq

/-- A JSON field value in the status response. -/
inductive FieldVal where
  | str (s : String)
  | nat (n : Nat)
deriving DecidableEq

/-- Embedding of `get_scan_status`: 404 for an unknown job; otherwise the
response dictionary with keys `status`, `message`, `progress`, and
`authorization_url` exactly when that key is present on the job record. -/
def getScanStatus (s : SysState) (jid : String) : Except HErr (List (String × FieldVal)) :=
  match jobOf s jid with
  | none => .error ⟨404, "Job not found"⟩
  | some job =>
    let response := [("status", FieldVal.str job.status),
                     ("message", FieldVal.str job.message),
                     ("progress", FieldVal.nat job.progress)]
    match job.authorization_url with
    | some u => .ok (response ++ [("authorization_url", FieldVal.str u)])
    | none => .ok response

/-- The `FileResponse` returned by a successful download. -/
inductive DownloadResp where
  | fileResponse (path mediaType filename : String)
deriving DecidableEq

/-- Embedding of `download_results`: 404 for an unknown job, 400 when the job
is not in `completed` state, 404 when the CSV file is missing, and the file
response otherwise. -/
def downloadResults (s : SysState) (jid : String) : Except HErr DownloadResp :=
  match jobOf s jid with
  | none => .error ⟨404, "Job not found"⟩
  | some job =>
    if job.status ≠ "completed" then .error ⟨400, "Scan not completed yet"⟩
    else
      match artifactOf s jid with
      | none => .error ⟨404, "Result file not found"⟩
      | some _ =>
        .ok (.fileResponse ("scan_results_" ++ jid ++ ".csv") "text/csv" "google_drive_scan.csv")

/-- The effect of the scheduled background task on the shared state: running
`process_scan` installs/overwrites the job record under its id (final state
of the execution trace) and writes the CSV artifact if the run produced one. -/
def runJob (s : SysState) (jid fid : String) (env : Env) : SysState :=
  let r := processScan fid env
  { scan_jobs := (jid, (r.1.getLast?).getD initialJob) :: s.scan_jobs
    artifacts :=
      match r.2 with
      | none => s.artifacts
      | some a => (jid, a) :: s.artifacts }

-- Equality tests on `Except` values are needed to evaluate the embedded
-- functions on concrete inputs.
deriving instance DecidableEq for Except

/-- A concrete remote hierarchy: a node carries its listing metadata and, when
it is a folder, its direct children split into pages exactly as the remote
API serves them (page `k` of the listing is `pages[k]`; the continuation
token is present after every page but the last). -/
inductive GTree : Type where
  | node (info : GFile) (pages : List (List GTree)) : GTree

/-- The listing metadata of a node. -/
def GTree.info : GTree → GFile
  | .node i _ => i

/-- The paged children of a node. -/
def GTree.pages : GTree → List (List GTree)
  | .node _ p => p

mutual
/-- Modelled from the spec (section 4.2, Tree Walker): the walk of a single
child: emit its `Entry` with the accumulated path, and if it is a folder,
recurse into its children with the joined path. This is the pre-order
contract: a folder's own entry precedes every entry of its descendants. -/
def specWalkOne : GTree → String → List FileInfo
  | .node info pages, path =>
    if info.mimeType = folderMime then
      mkFileInfo info path :: specWalkPages pages (joinPath path info.name)
    else [mkFileInfo info path]

/-- Modelled from the spec: siblings are emitted in the order the remote API
returns them within each page. -/
def specWalkList : List GTree → String → List FileInfo
  | [], _ => []
  | t :: ts, path => specWalkOne t path ++ specWalkList ts path

/-- Modelled from the spec: the children of a folder are the union of all its
pages, concatenated in request order (pagination fully drained). -/
def specWalkPages : List (List GTree) → String → List FileInfo
  | [], _ => []
  | p :: ps, path => specWalkList p path ++ specWalkPages ps path
end

mutual
/-- The drive serves exactly the hierarchy described by the tree: at every
node, page `k` of its id returns the metadata of `pages[k]` (empty beyond the
last page) with a continuation token present exactly when page `k+1` exists,
and the same holds recursively for every child. -/
def DriveMatches (D : Drive) : GTree → Prop
  | .node info pages =>
    (∀ k, D.pages info.id k =
        ListResp.ok ((pages.getD k []).map GTree.info) (decide (k + 1 < pages.length)))
    ∧ DriveMatchesPages D pages

/-- `DriveMatches` for every node of every page of a page list. -/
def DriveMatchesPages (D : Drive) : List (List GTree) → Prop
  | [] => True
  | p :: ps => DriveMatchesList D p ∧ DriveMatchesPages D ps

/-- `DriveMatches` for every node of a list. -/
def DriveMatchesList (D : Drive) : List GTree → Prop
  | [] => True
  | t :: ts => DriveMatches D t ∧ DriveMatchesList D ts
end

/-- The terminal job statuses. -/
def terminalStatus (st : String) : Bool :=
  st == "completed" || st == "failed" || st == "auth_required"

/-- One admissible status transition of the job state machine: a terminal
status never changes, and any change starts from `processing`. -/
def statusStepOk (a b : String) : Bool :=
  (!terminalStatus a || (b == a)) && ((b == a) || (a == "processing"))

/-- Every consecutive pair of a status sequence is an admissible step. -/
def stepsOk : List String → Bool
  | [] => true
  | [_] => true
  | a :: b :: rest => statusStepOk a b && stepsOk (b :: rest)

/-- Samples used to evaluate the embedded program on concrete inputs:
file and folder metadata of a small hierarchy. -/
def gA : GFile := ⟨"idA", "fileA", "text/plain", some "12"⟩

/-- A sub-folder named `sub`. -/
def gB : GFile := ⟨"idB", "sub", folderMime, none⟩

/-- A file on the second page of the root listing. -/
def gC : GFile := ⟨"idC", "fileC", "text/plain", none⟩

/-- The file inside the sub-folder. -/
def gD : GFile := ⟨"idD", "fileD", "text/plain", some "3"⟩

/-- A sample hierarchy: leaf node for `fileA`. -/
def tA : GTree := .node gA []

/-- Leaf node for `fileD`. -/
def tD : GTree := .node gD []

/-- The sub-folder node, a single page holding `fileD`. -/
def tB : GTree := .node gB [[tD]]

/-- Leaf node for `fileC`. -/
def tC : GTree := .node gC []

/-- The root of the sample hierarchy: the root folder `r` has two pages
(`fileA` and `sub` on page 0, `fileC` on page 1, with a continuation token
after page 0). -/
def TW : GTree := .node ⟨"r", "root", folderMime, none⟩ [[tA, tB], [tC]]

/-- A drive serving the nodes of the given list: a listing request for a
node's id answers with the metadata of the requested page of that node's
children, flagging a continuation token while later pages exist. -/
def treeDrive (ts : List GTree) : Drive := ⟨fun fid k =>
  match ts.find? (fun t => (GTree.info t).id == fid) with
  | some t =>
    ListResp.ok (((GTree.pages t).getD k []).map GTree.info)
      (decide (k + 1 < (GTree.pages t).length))
  | none => ListResp.ok [] false⟩

/-- All nodes of the sample hierarchy. -/
def nodesW : List GTree := [TW, tA, tB, tC, tD]

/-- The concrete drive serving the sample hierarchy. -/
def dW : Drive := treeDrive nodesW

/-- The expected walk output over `dW`. -/
def outW : List FileInfo :=
  [mkFileInfo gA "", mkFileInfo gB "", mkFileInfo gD "sub", mkFileInfo gC ""]

/-- A drive in which the third page (page index 2) of the root listing
fails, after two successful pages carrying a continuation token. -/
def dFail : Drive := ⟨fun fid k =>
  if fid = "r" then
    if k = 0 then ListResp.ok [gA] true
    else if k = 1 then ListResp.ok [gC] true
    else ListResp.err "rate limit exceeded"
  else ListResp.ok [] false⟩

/-- The empty system state: no jobs, no CSV files. -/
def s0 : SysState := ⟨[], []⟩

/-- An environment with a cached credential in which everything succeeds. -/
def envOK : Env := ⟨true, .ok "https://accounts.google.com/o/oauth2/auth?c=1", .ok (), dW, 10, none⟩

/-- An environment with no cached credential. -/
def envAuth : Env := ⟨false, .ok "https://accounts.google.com/o/oauth2/auth?c=1", .ok (), dW, 10, none⟩

/-- An environment in which the walk fails on the third page of the root. -/
def envFail : Env := ⟨true, .ok "https://accounts.google.com/o/oauth2/auth?c=1", .ok (), dFail, 10, none⟩

/-- The walk of the hierarchy rooted at `T` emits the entry of node `c` with
accumulated path `path`, as determined by `c`'s actual ancestor chain:
either `c` is a direct child of the scan root — then its path is empty — or
`c` is a direct child of a folder node `p` whose own entry was emitted at
`pp`, and then `c`'s path is `pp` joined with `p`'s name by a slash with no
leading separator. -/
inductive EmittedAt (T : GTree) : GTree → String → Prop where
  | root {c : GTree} :
      c ∈ (GTree.pages T).flatten → EmittedAt T c ""
  | child {p : GTree} {pp : String} {c : GTree} :
      EmittedAt T p pp → (GTree.info p).mimeType = folderMime →
      c ∈ (GTree.pages p).flatten → EmittedAt T c (joinPath pp (GTree.info p).name)

lemma gfile_sizeOf_pos (g : GFile) : 1 ≤ sizeOf g := by
  cases g; simp_arith

lemma driveMatchesList_head {D : Drive} {t : GTree} {ts : List GTree}
    (h : DriveMatchesList D (t :: ts)) : DriveMatches D t ∧ DriveMatchesList D ts := by
  simpa [DriveMatchesList] using h

lemma driveMatchesPages_get {D : Drive} : ∀ {ps : List (List GTree)} {k : Nat}
    (_ : DriveMatchesPages D ps) (hk : k < ps.length), DriveMatchesList D ps[k]
  | p :: ps, 0, h, _ => by
    have := (by simpa [DriveMatchesPages] using h : DriveMatchesList D p ∧ DriveMatchesPages D ps)
    simpa using this.1
  | p :: ps, k + 1, h, hk => by
    have := (by simpa [DriveMatchesPages] using h : DriveMatchesList D p ∧ DriveMatchesPages D ps)
    simpa using driveMatchesPages_get this.2 (by simpa using hk)

example (info : GFile) (pages : List (List GTree)) :
    sizeOf (GTree.node info pages) = 1 + sizeOf info + sizeOf pages := by
  simp_arith

lemma walk_eq_spec : ∀ (fuel : Nat) (D : Drive) (info : GFile) (pages : List (List GTree))
    (path : String) (k : Nat),
    DriveMatches D (.node info pages) →
    1 + sizeOf (pages.drop k) ≤ fuel →
    listFilesGo D fuel info.id path k = .ok (specWalkPages (pages.drop k) path) := by
  intro fuel
  induction fuel with
  | zero => intro D info pages path k _ hsz; omega
  | succ f ih =>
    intro D info pages path k hm hsz
    have hm' : (∀ j, D.pages info.id j =
        ListResp.ok ((pages.getD j []).map GTree.info) (decide (j + 1 < pages.length)))
        ∧ DriveMatchesPages D pages := by
      simpa [DriveMatches] using hm
    have hpage := hm'.1 k
    -- the per-page helper lemma, at fuel f
    have hlist : ∀ (ts : List GTree) (path : String), DriveMatchesList D ts → sizeOf ts ≤ f →
        pageFilesWith (fun fid p => listFilesGo D f fid p 0) (ts.map GTree.info) path
          = .ok (specWalkList ts path) := by
      intro ts
      induction ts with
      | nil => intro path _ _; simp [pageFilesWith, specWalkList]
      | cons t ts' ihts =>
        intro path hdm hsz'
        obtain ⟨hdmt, hdmts⟩ := driveMatchesList_head hdm
        cases t with
        | node ti tp =>
          have hszt : sizeOf (GTree.node ti tp :: ts') = 1 + (1 + sizeOf ti + sizeOf tp) + sizeOf ts' := by
            simp_arith
          have hti := gfile_sizeOf_pos ti
          by_cases hf : ti.mimeType = folderMime
          · have hrec := ih D ti tp (joinPath path ti.name) 0 hdmt
              (by simp only [List.drop_zero]; omega)
            simp only [List.drop_zero] at hrec
            have htail := ihts path hdmts (by omega)
            simp only [List.map_cons, pageFilesWith, GTree.info, hf, if_pos, hrec, htail,
              specWalkList, specWalkOne]
            simp [mkFileInfo, GTree.info]
          · have htail := ihts path hdmts (by omega)
            simp only [List.map_cons, pageFilesWith, GTree.info, hf, if_neg, htail,
              specWalkList, specWalkOne]
            simp [mkFileInfo, GTree.info, hf]
    rcases Nat.lt_or_ge k pages.length with hk | hk
    · have hdrop : pages.drop k = pages[k] :: pages.drop (k + 1) := List.drop_eq_getElem_cons hk
      have hgetD : pages.getD k [] = pages[k] := by
        rw [List.getD_eq_getElem?_getD, List.getElem?_eq_getElem hk]; rfl
      have hmk : DriveMatchesList D pages[k] := driveMatchesPages_get hm'.2 hk
      have hsz1 : 1 ≤ sizeOf (pages.drop (k + 1)) := by
        cases h : pages.drop (k + 1) <;> simp_arith
      have hszpk : 1 ≤ sizeOf pages[k] := by
        cases h : pages[k] <;> simp_arith
      have hdropsz : sizeOf (pages.drop k) = 1 + sizeOf pages[k] + sizeOf (pages.drop (k + 1)) := by
        rw [hdrop]; simp only [List.cons.sizeOf_spec]
      rw [hgetD] at hpage
      simp only [listFilesGo, hpage]
      rw [hlist pages[k] path hmk (by omega)]
      by_cases hnext : k + 1 < pages.length
      · rw [decide_eq_true hnext]
        simp only [if_true]
        rw [ih D info pages path (k + 1) hm (by omega)]
        rw [hdrop]
        simp [specWalkPages]
      · rw [decide_eq_false hnext]
        have hnil : pages.drop (k + 1) = [] := List.drop_eq_nil_of_le (by omega)
        rw [hdrop, hnil]
        simp [specWalkPages]
    · have hnil : pages.drop k = [] := List.drop_eq_nil_of_le hk
      have hgetD : pages.getD k [] = [] := by
        rw [List.getD_eq_getElem?_getD, List.getElem?_eq_none hk]; rfl
      have hnext : ¬ (k + 1 < pages.length) := by omega
      rw [hgetD] at hpage
      rw [decide_eq_false hnext] at hpage
      simp only [listFilesGo, hpage, List.map_nil, pageFilesWith]
      rw [hnil]
      simp [specWalkPages]

lemma listTrace_chain_mem : ∀ (fuel : Nat) (D : Drive) (fid path : String) (k : Nat),
    (listTrace D fuel fid path k).2 = true →
    ∀ j, k ≤ j →
    (∀ i, k ≤ i → i < j → ∃ fs, D.pages fid i = ListResp.ok fs true) →
    (fid, j) ∈ (listTrace D fuel fid path k).1 := by
  intro fuel
  induction fuel with
  | zero => intro D fid path k h; simp [listTrace] at h
  | succ f ih =>
    intro D fid path k h j hkj hchain
    rcases hresp : D.pages fid k with ⟨files, hasNext⟩ | m <;>
      simp only [listTrace, hresp] at h ⊢
    · obtain ⟨t, b, hpt⟩ : ∃ t b,
          pageTraceWith (fun fid newPath => listTrace D f fid newPath 0) files path = (t, b) :=
        ⟨_, _, rfl⟩
      rw [hpt] at h ⊢
      cases b with
      | false => simp at h
      | true =>
        cases hasNext with
        | false =>
          rcases Nat.eq_or_lt_of_le hkj with rfl | hlt
          · simp
          · exfalso
            obtain ⟨fs, hfs⟩ := hchain k (le_refl k) hlt
            rw [hresp] at hfs
            simp at hfs
        | true =>
          simp only [if_true] at h ⊢
          rcases Nat.eq_or_lt_of_le hkj with rfl | hlt
          · simp
          · have hsuc : (listTrace D f fid path (k + 1)).2 = true := by simpa using h
            have hmem := ih D fid path (k + 1) hsuc j hlt
              (fun i h1 h2 => hchain i (Nat.le_of_succ_le h1) h2)
            simp only [List.mem_cons, List.mem_append]
            right; right
            exact hmem
    · simp at h

lemma stepsOk_step : ∀ (l : List String), stepsOk l = true → ∀ (i : Nat) (a b : String),
    l[i]? = some a → l[i + 1]? = some b → statusStepOk a b = true := by
  intro l
  induction l with
  | nil => intro _ i a b ha _; simp at ha
  | cons x l ihl =>
    intro h i a b ha hb
    cases l with
    | nil =>
      cases i with
      | zero => simp at hb
      | succ n => simp at hb
    | cons y l' =>
      have h' : statusStepOk x y = true ∧ stepsOk (y :: l') = true := by
        simpa [stepsOk, Bool.and_eq_true] using h
      cases i with
      | zero =>
        simp only [List.getElem?_cons_zero, Option.some.injEq] at ha
        simp only [List.getElem?_cons_succ, List.getElem?_cons_zero, Option.some.injEq] at hb
        subst ha; subst hb; exact h'.1
      | succ n =>
        rw [List.getElem?_cons_succ] at ha
        rw [List.getElem?_cons_succ] at hb
        exact ihl h'.2 n a b ha hb

lemma statusStepOk_terminal {a b : String} (h : statusStepOk a b = true)
    (hterm : terminalStatus a = true) : b = a := by
  simp only [statusStepOk, hterm, Bool.not_true, Bool.false_or, Bool.and_eq_true] at h
  simpa using h.1

lemma statusStepOk_change {a b : String} (h : statusStepOk a b = true) (hne : b ≠ a) :
    a = "processing" := by
  simp only [statusStepOk, Bool.and_eq_true, Bool.or_eq_true] at h
  rcases h.2 with hba | hp
  · exact absurd (by simpa using hba) hne
  · simpa using hp

lemma stepsOk_stable (l : List String) (h : stepsOk l = true) :
    ∀ (i j : Nat) (a : String), i ≤ j → l[i]? = some a → terminalStatus a = true →
    ∀ b, l[j]? = some b → b = a := by
  intro i j a hij ha hterm
  induction j, hij using Nat.le_induction with
  | base =>
    intro b hb
    rw [ha] at hb
    exact ((Option.some.injEq _ _).mp hb).symm
  | succ n hn ihn =>
    intro b hb
    have hlen : n + 1 < l.length := (List.getElem?_eq_some.mp hb).1
    obtain ⟨c, hc⟩ : ∃ c, l[n]? = some c :=
      ⟨l[n], List.getElem?_eq_getElem (by omega)⟩
    have hca := ihn c hc
    subst hca
    have hcb := stepsOk_step l h n c b hc hb
    rw [statusStepOk_terminal hcb hterm]

lemma processScan_shape (fid : String) (env : Env) :
    (∃ m, processScan fid env = ([initialJob, failedJob initialJob m], none)) ∨
    (∃ u, processScan fid env = ([initialJob, authJob u], none)) ∨
    (∃ m, processScan fid env =
        ([initialJob, scanningJob, scanningJob10, failedJob scanningJob10 m], none)) ∨
    (∃ m rows, processScan fid env =
        ([initialJob, scanningJob, scanningJob10, exportingJob, exportingJob90,
          failedJob exportingJob90 m], some rows)) ∨
    (∃ files, processScan fid env =
        ([initialJob, scanningJob, scanningJob10, exportingJob, exportingJob90,
          completedJob (List.length files)], some (exportToCsv files))) := by
  unfold processScan
  cases hc : env.hasCredential with
  | false =>
    rw [if_pos rfl]
    cases ho : env.oauthFlow with
    | error e => exact Or.inl ⟨e, rfl⟩
    | ok url => exact Or.inr (Or.inl ⟨url, rfl⟩)
  | true =>
    rw [if_neg (by simp)]
    cases hb : env.buildService with
    | error e => exact Or.inl ⟨e, rfl⟩
    | ok _ =>
      cases hl : listFilesGo env.drive env.fuel fid "" 0 with
      | error e => exact Or.inr (Or.inr (Or.inl ⟨e, rfl⟩))
      | ok files =>
        cases he : env.exportErr with
        | some pe => exact Or.inr (Or.inr (Or.inr (Or.inl ⟨pe.1, pe.2, rfl⟩)))
        | none => exact Or.inr (Or.inr (Or.inr (Or.inr ⟨files, rfl⟩)))

lemma jobOf_runJob (s : SysState) (jid fid : String) (env : Env) :
    jobOf (runJob s jid fid env) jid =
      some (((processScan fid env).1.getLast?).getD initialJob) := by
  simp [runJob, jobOf, List.lookup]

lemma artifactOf_runJob_none {fid : String} {env : Env}
    (h : (processScan fid env).2 = none) (s : SysState) (jid : String) :
    artifactOf (runJob s jid fid env) jid = artifactOf s jid := by
  simp [runJob, artifactOf, h]

lemma artifactOf_runJob_some {fid : String} {env : Env} {a : List (List String)}
    (h : (processScan fid env).2 = some a) (s : SysState) (jid : String) :
    artifactOf (runJob s jid fid env) jid = some a := by
  simp [runJob, artifactOf, h, List.lookup]

/-- C1 (corrected): `scan_folder` does not create the Job record before
returning the job id — it only schedules `process_scan`, which runs after
the response is sent; the state visible to `get_status` is unchanged by the
submit call.  The record is created, in `processing` state with progress 0,
as the first action of the background execution routine, and once that
routine has run the job id is found. -/
theorem c1_job_record_created_by_background_task (s : SysState) (jid fid : String) (env : Env) :
    jobOf (scanFolder s jid fid).1 jid = jobOf s jid ∧
    (processScan fid env).1.head? = some initialJob ∧
    (jobOf (runJob s jid fid env) jid).isSome = true := by
  refine ⟨rfl, ?_, ?_⟩
  · rcases processScan_shape fid env with ⟨m, h⟩ | ⟨u, h⟩ | ⟨m, h⟩ | ⟨m, rows, h⟩ | ⟨files, h⟩ <;>
      rw [h] <;> rfl
  · rw [jobOf_runJob]; rfl

/-- C1 counterexample: submitting against the empty state returns a job id
for which the job record does not yet exist, so `get_status` with the job id
returned by submit yields the 404 not-found error before the background task
has run — the claim that a submitted job id is never not-found is false. -/
theorem c1_counterexample :
    jobOf (scanFolder s0 "4077aa" "root").1 (scanFolder s0 "4077aa" "root").2.job_id = none ∧
    getScanStatus (scanFolder s0 "4077aa" "root").1 (scanFolder s0 "4077aa" "root").2.job_id =
      .error ⟨404, "Job not found"⟩ := by
  exact ⟨rfl, rfl⟩

/-- C5 (corrected): when a listing request fails during the walk (with a
cached credential and a working service), the job reaches `failed` and no
artifact is created for its job id, but a subsequent `download_results`
returns the 400 precondition error "Scan not completed yet" — not the 404
not-found error the claim asserts. -/
theorem c5_failed_listing_download (s : SysState) (jid fid : String) (env : Env) (e : String)
    (hc : env.hasCredential = true)
    (hb : env.buildService = .ok ())
    (hl : listFilesGo env.drive env.fuel fid "" 0 = .error e)
    (ha : artifactOf s jid = none) :
    (jobOf (runJob s jid fid env) jid).map Job.status = some "failed" ∧
    artifactOf (runJob s jid fid env) jid = none ∧
    downloadResults (runJob s jid fid env) jid = .error ⟨400, "Scan not completed yet"⟩ := by
  have hps : processScan fid env =
      ([initialJob, scanningJob, scanningJob10, failedJob scanningJob10 e], none) := by
    unfold processScan
    rw [if_neg (by simp [hc])]
    rw [hb, hl]
  have hj := jobOf_runJob s jid fid env
  rw [hps] at hj
  simp only [List.getLast?, Option.getD] at hj
  refine ⟨?_, ?_, ?_⟩
  · rw [hj]; rfl
  · rw [artifactOf_runJob_none (by rw [hps]) s jid]; exact ha
  · unfold downloadResults
    rw [hj]
    rfl

/-- C5 counterexample: with the concrete drive whose third page of the root
listing fails, the run ends `failed` with no artifact, and `download_results`
answers 400 "Scan not completed yet" — a precondition error, not not-found. -/
theorem c5_counterexample :
    (jobOf (runJob s0 "j5" "r" envFail) "j5").map Job.status = some "failed" ∧
    artifactOf (runJob s0 "j5" "r" envFail) "j5" = none ∧
    downloadResults (runJob s0 "j5" "r" envFail) "j5" =
      .error ⟨400, "Scan not completed yet"⟩ := by
  refine ⟨?_, ?_, ?_⟩ <;> rfl

/-- Witness for C5 at a concrete input: the hypotheses of
`c5_failed_listing_download` hold for `envFail` and the conclusion follows. -/
theorem c5_witness :
    listFilesGo envFail.drive envFail.fuel "r" "" 0 = .error "rate limit exceeded" ∧
    downloadResults (runJob s0 "w5" "r" envFail) "w5" = .error ⟨400, "Scan not completed yet"⟩ :=
  ⟨rfl, (c5_failed_listing_download s0 "w5" "r" envFail "rate limit exceeded" rfl rfl rfl rfl).2.2⟩

/-- C6 (confirmed): when no credential is cached (and the OAuth flow yields
its authorization URL, assumed non-empty per the provider contract), the job
ends in `auth_required` carrying that URL, every state of the execution keeps
progress 0, and no artifact is created for the job id. -/
theorem c6_auth_required (s : SysState) (jid fid u : String) (env : Env)
    (hc : env.hasCredential = false)
    (ho : env.oauthFlow = .ok u)
    (hu : u ≠ "")
    (ha : artifactOf s jid = none) :
    ∃ j, jobOf (runJob s jid fid env) jid = some j ∧
      j.status = "auth_required" ∧ j.authorization_url = some u ∧ u ≠ "" ∧
      j.progress = 0 ∧
      (∀ k ∈ (processScan fid env).1, k.progress = 0) ∧
      artifactOf (runJob s jid fid env) jid = none := by
  have hps : processScan fid env = ([initialJob, authJob u], none) := by
    unfold processScan
    rw [if_pos (by rw [hc])]
    rw [ho]
  have hj := jobOf_runJob s jid fid env
  rw [hps] at hj
  simp only [List.getLast?, Option.getD] at hj
  refine ⟨authJob u, hj, rfl, rfl, hu, rfl, ?_, ?_⟩
  · rw [hps]
    intro k hk
    simp only [List.mem_cons, List.not_mem_nil, or_false] at hk
    rcases hk with rfl | rfl
    · rfl
    · rfl
  · rw [artifactOf_runJob_none (by rw [hps]) s jid]; exact ha

/-- Witness for C6, at a concrete environment with no cached credential. -/
theorem c6_witness :
    envAuth.hasCredential = false ∧
    (∃ j, jobOf (runJob s0 "w6" "r" envAuth) "w6" = some j ∧
      j.status = "auth_required" ∧
      j.authorization_url = some "https://accounts.google.com/o/oauth2/auth?c=1" ∧
      "https://accounts.google.com/o/oauth2/auth?c=1" ≠ "" ∧
      j.progress = 0 ∧
      (∀ k ∈ (processScan "r" envAuth).1, k.progress = 0) ∧
      artifactOf (runJob s0 "w6" "r" envAuth) "w6" = none) :=
  ⟨rfl, c6_auth_required s0 "w6" "r" "https://accounts.google.com/o/oauth2/auth?c=1" envAuth
    rfl rfl (by decide) rfl⟩

/-- C7 (confirmed): any job that ends `completed` stores a `file_count`
equal to the number of data rows (below the header) of the CSV artifact
persisted under its job id. -/
theorem c7_entry_count_matches_artifact (s : SysState) (jid fid : String) (env : Env) (j : Job)
    (hj : jobOf (runJob s jid fid env) jid = some j)
    (hst : j.status = "completed") :
    ∃ n rows, j.file_count = some n ∧
      artifactOf (runJob s jid fid env) jid = some (csvHeader :: rows) ∧
      rows.length = n := by
  rw [jobOf_runJob] at hj
  rcases processScan_shape fid env with ⟨m, h⟩ | ⟨u, h⟩ | ⟨m, h⟩ | ⟨m, rows, h⟩ | ⟨files, h⟩ <;>
    rw [h] at hj <;> simp only [List.getLast?, Option.getD, Option.some.injEq] at hj <;>
    subst hj
  · simp [failedJob] at hst
  · simp [authJob] at hst
  · simp [failedJob] at hst
  · simp [failedJob] at hst
  · refine ⟨files.length, files.map csvRow, rfl, ?_, by simp⟩
    rw [artifactOf_runJob_some (by rw [h]) s jid]
    rfl

/-- Witness for C7: the concrete successful run stores `file_count = 4` and
the artifact holds 4 data rows. -/
theorem c7_witness :
    jobOf (runJob s0 "w7" "r" envOK) "w7" = some (completedJob 4) ∧
    (completedJob 4).status = "completed" ∧
    (∃ n rows, (completedJob 4).file_count = some n ∧
      artifactOf (runJob s0 "w7" "r" envOK) "w7" = some (csvHeader :: rows) ∧
      rows.length = n) :=
  ⟨rfl, rfl, c7_entry_count_matches_artifact s0 "w7" "r" envOK (completedJob 4) rfl rfl⟩

/-- C8 (corrected): `get_scan_status` never includes an entry-count field in
its response, in any job state — the response carries exactly the keys
`status`, `message`, `progress`, plus `authorization_url` when stored on the
record; the count stored on a completed job (`file_count`) is not exposed. -/
theorem c8_status_has_no_entry_count (s : SysState) (jid : String)
    (resp : List (String × FieldVal))
    (h : getScanStatus s jid = .ok resp) :
    resp.lookup "entry_count" = none ∧ resp.lookup "file_count" = none ∧
    (resp.map Prod.fst = ["status", "message", "progress"] ∨
     resp.map Prod.fst = ["status", "message", "progress", "authorization_url"]) := by
  unfold getScanStatus at h
  cases hj : jobOf s jid with
  | none => rw [hj] at h; exact absurd h (by simp)
  | some job =>
    rw [hj] at h
    dsimp only at h
    cases hu : job.authorization_url with
    | none =>
      rw [hu] at h
      simp only [Except.ok.injEq] at h
      subst h
      refine ⟨rfl, rfl, Or.inl rfl⟩
    | some u =>
      rw [hu] at h
      simp only [Except.ok.injEq] at h
      subst h
      refine ⟨rfl, rfl, Or.inr rfl⟩

/-- C8 counterexample: a job that completed (here with entry count 4 stored
as `file_count` on the record) gets a status response with only the three
fields `status`, `message`, `progress` — no entry count is present, contrary
to the claim that completed jobs expose `entry_count`. -/
theorem c8_counterexample :
    (jobOf (runJob s0 "j8" "r" envOK) "j8").map Job.status = some "completed" ∧
    (jobOf (runJob s0 "j8" "r" envOK) "j8").map Job.file_count = some (some 4) ∧
    getScanStatus (runJob s0 "j8" "r" envOK) "j8" =
      .ok [("status", .str "completed"), ("message", .str "Found 4 files and folders"),
           ("progress", .nat 100)] ∧
    [("status", FieldVal.str "completed"),
     ("message", FieldVal.str "Found 4 files and folders"),
     ("progress", FieldVal.nat 100)].lookup "entry_count" = none := by
  refine ⟨rfl, rfl, rfl, rfl⟩

/-- Witness for C8: the concrete completed run of `c8_counterexample`'s
shape, fed through the theorem. -/
theorem c8_witness :
    getScanStatus (runJob s0 "w8" "r" envOK) "w8" =
      .ok [("status", .str "completed"), ("message", .str "Found 4 files and folders"),
           ("progress", .nat 100)] ∧
    ([("status", FieldVal.str "completed"),
      ("message", FieldVal.str "Found 4 files and folders"),
      ("progress", FieldVal.nat 100)].lookup "entry_count" = none ∧
     [("status", FieldVal.str "completed"),
      ("message", FieldVal.str "Found 4 files and folders"),
      ("progress", FieldVal.nat 100)].lookup "file_count" = none ∧
     ([("status", FieldVal.str "completed"),
       ("message", FieldVal.str "Found 4 files and folders"),
       ("progress", FieldVal.nat 100)].map Prod.fst = ["status", "message", "progress"] ∨
      [("status", FieldVal.str "completed"),
       ("message", FieldVal.str "Found 4 files and folders"),
       ("progress", FieldVal.nat 100)].map Prod.fst =
        ["status", "message", "progress", "authorization_url"])) :=
  ⟨rfl, c8_status_has_no_entry_count (runJob s0 "w8" "r" envOK) "w8" _ rfl⟩

lemma scanStatuses_ok (fid : String) (env : Env) :
    stepsOk (scanStatuses fid env) = true ∧
    (scanStatuses fid env).head? = some "processing" := by
  rcases processScan_shape fid env with ⟨m, h⟩ | ⟨u, h⟩ | ⟨m, h⟩ | ⟨m, rows, h⟩ | ⟨files, h⟩ <;>
    · unfold scanStatuses
      rw [h]
      constructor <;> rfl

/-- C9 (confirmed): the trace of job states of any execution starts in
`processing`; once a state carries a terminal status (`completed`, `failed`,
`auth_required`) every later state carries the same status; and whenever the
status changes from one step to the next, the earlier status is
`processing` — so the terminal states are reachable only from `processing`,
the sole initial state. -/
theorem c9_terminal_states_final (fid : String) (env : Env) :
    (scanStatuses fid env).head? = some "processing" ∧
    (∀ (i j : Nat) (a b : String), i ≤ j → (scanStatuses fid env)[i]? = some a →
      (scanStatuses fid env)[j]? = some b → terminalStatus a = true → b = a) ∧
    (∀ (i : Nat) (a b : String), (scanStatuses fid env)[i]? = some a →
      (scanStatuses fid env)[i + 1]? = some b → b ≠ a → a = "processing") := by
  obtain ⟨hsteps, hhead⟩ := scanStatuses_ok fid env
  refine ⟨hhead, ?_, ?_⟩
  · intro i j a b hij ha hb hterm
    exact stepsOk_stable _ hsteps i j a hij ha hterm b hb
  · intro i a b ha hb hne
    exact statusStepOk_change (stepsOk_step _ hsteps i a b ha hb) hne

/-- Witness for C9: in the concrete `auth_required` run, position 1 is
terminal and stays itself, and the single status change at step 0 starts
from `processing`. -/
theorem c9_witness :
    (1 : Nat) ≤ 1 ∧ (scanStatuses "r" envAuth)[1]? = some "auth_required" ∧
    terminalStatus "auth_required" = true ∧
    ("auth_required" : String) = "auth_required" ∧
    ("processing" : String) = "processing" :=
  ⟨le_refl 1, rfl, rfl,
    (c9_terminal_states_final "r" envAuth).2.1 1 1 "auth_required" "auth_required"
      (le_refl 1) rfl rfl rfl,
    (c9_terminal_states_final "r" envAuth).2.2 0 "processing" "auth_required" rfl rfl
      (by decide)⟩

/-- C10 (confirmed): at every point of every execution, the job record's
progress is 100 exactly when its status is `completed`; a `failed` record
keeps the last pre-failure progress, which is 0, 10 or 90, never 100; the
`auth_required` record keeps progress 0. -/
theorem c10_progress_iff_completed (fid : String) (env : Env) :
    ∀ j ∈ (processScan fid env).1,
      (j.progress = 100 ↔ j.status = "completed") ∧
      (j.status = "failed" → j.progress = 0 ∨ j.progress = 10 ∨ j.progress = 90) ∧
      (j.status = "auth_required" → j.progress = 0) := by
  rcases processScan_shape fid env with ⟨m, h⟩ | ⟨u, h⟩ | ⟨m, h⟩ | ⟨m, rows, h⟩ | ⟨files, h⟩ <;>
    rw [h] <;> intro j hj <;>
    simp only [List.mem_cons, List.not_mem_nil, or_false] at hj
  · rcases hj with rfl | rfl <;> exact ⟨by simp [initialJob, failedJob], by simp [initialJob, failedJob], by simp [initialJob, failedJob]⟩
  · rcases hj with rfl | rfl <;> exact ⟨by simp [initialJob, authJob], by simp [initialJob, authJob], by simp [initialJob, authJob]⟩
  · rcases hj with rfl | rfl | rfl | rfl <;>
      exact ⟨by simp [initialJob, scanningJob, scanningJob10, failedJob],
             by simp [initialJob, scanningJob, scanningJob10, failedJob],
             by simp [initialJob, scanningJob, scanningJob10, failedJob]⟩
  · rcases hj with rfl | rfl | rfl | rfl | rfl | rfl <;>
      exact ⟨by simp [initialJob, scanningJob, scanningJob10, exportingJob, exportingJob90, failedJob],
             by simp [initialJob, scanningJob, scanningJob10, exportingJob, exportingJob90, failedJob],
             by simp [initialJob, scanningJob, scanningJob10, exportingJob, exportingJob90, failedJob]⟩
  · rcases hj with rfl | rfl | rfl | rfl | rfl | rfl <;>
      exact ⟨by simp [initialJob, scanningJob, scanningJob10, exportingJob, exportingJob90, completedJob],
             by simp [initialJob, scanningJob, scanningJob10, exportingJob, exportingJob90, completedJob],
             by simp [initialJob, scanningJob, scanningJob10, exportingJob, exportingJob90, completedJob]⟩

/-- Witness for C10: the failed record of the concrete failing run has
progress 10 (not 100) and the biconditional holds on it. -/
theorem c10_witness :
    failedJob scanningJob10 "rate limit exceeded" ∈ (processScan "r" envFail).1 ∧
    (((failedJob scanningJob10 "rate limit exceeded").progress = 100 ↔
        (failedJob scanningJob10 "rate limit exceeded").status = "completed") ∧
      ((failedJob scanningJob10 "rate limit exceeded").status = "failed" →
        (failedJob scanningJob10 "rate limit exceeded").progress = 0 ∨
        (failedJob scanningJob10 "rate limit exceeded").progress = 10 ∨
        (failedJob scanningJob10 "rate limit exceeded").progress = 90) ∧
      ((failedJob scanningJob10 "rate limit exceeded").status = "auth_required" →
        (failedJob scanningJob10 "rate limit exceeded").progress = 0)) :=
  ⟨by decide, c10_progress_iff_completed "r" envFail
    (failedJob scanningJob10 "rate limit exceeded") (by decide)⟩

lemma dW_matches : DriveMatches dW TW := by
  simp only [TW, tA, tB, tC, tD, DriveMatches, DriveMatchesPages, DriveMatchesList]
  repeat' apply And.intro
  all_goals first
    | exact trivial
    | exact fun k => rfl

/-- C3 (confirmed): over any remote hierarchy (a tree whose children are
split into arbitrarily many pages) served faithfully by the drive, and with
enough fuel, the walk returns exactly the spec-level pre-order flattening:
each visited folder contributes the union of all its pages' children, with
siblings in page order (pages concatenated in request order), and each
folder's own entry precedes every entry of its descendants. -/
theorem c3_walk_preorder_pages (D : Drive) (T : GTree) (path : String) (fuel : Nat)
    (hm : DriveMatches D T)
    (hf : 1 + sizeOf (GTree.pages T) ≤ fuel) :
    listFilesGo D fuel (GTree.info T).id path 0 = .ok (specWalkPages (GTree.pages T) path) := by
  cases T with
  | node info pages =>
    have h := walk_eq_spec fuel D info pages path 0 hm (by simpa [GTree.pages] using hf)
    simpa [GTree.info, GTree.pages] using h

/-- Witness for C3: the sample two-page hierarchy, walked with ample fuel,
yields the specified pre-order flattening. -/
theorem c3_witness :
    DriveMatches dW TW ∧
    1 + sizeOf (GTree.pages TW) ≤ 100000000 ∧
    listFilesGo dW 100000000 (GTree.info TW).id "" 0 =
      .ok (specWalkPages (GTree.pages TW) "") :=
  ⟨dW_matches, by decide,
    c3_walk_preorder_pages dW TW "" 100000000 dW_matches (by decide)⟩

lemma list_sizeOf_pos {α : Type} [SizeOf α] (l : List α) : 1 ≤ sizeOf l := by
  cases l <;> simp_arith

lemma gtree_sizeOf_pos (t : GTree) : 1 ≤ sizeOf t := by
  cases t; simp_arith

lemma specWalkOne_head (t : GTree) (q : String) :
    mkFileInfo (GTree.info t) q ∈ specWalkOne t q := by
  cases t with
  | node info pages =>
    by_cases h : info.mimeType = folderMime <;>
      simp [specWalkOne, GTree.info, h]

lemma specWalkList_mem_of_mem {t : GTree} {ts : List GTree} (h : t ∈ ts) (q : String) :
    ∀ fi ∈ specWalkOne t q, fi ∈ specWalkList ts q := by
  induction ts with
  | nil => cases h
  | cons s ts' ih =>
    intro fi hfi
    rcases List.mem_cons.mp h with rfl | h'
    · simp only [specWalkList, List.mem_append]
      exact Or.inl hfi
    · simp only [specWalkList, List.mem_append]
      exact Or.inr (ih h' fi hfi)

lemma specWalkPages_mem_of_mem {t : GTree} {ps : List (List GTree)} (h : t ∈ ps.flatten)
    (q : String) : ∀ fi ∈ specWalkOne t q, fi ∈ specWalkPages ps q := by
  induction ps with
  | nil => simp at h
  | cons pg ps' ih =>
    intro fi hfi
    have h' : t ∈ pg ∨ t ∈ ps'.flatten := by
      rcases List.mem_flatten.mp h with ⟨l, hl, htl⟩
      rcases List.mem_cons.mp hl with rfl | hl'
      · exact Or.inl htl
      · exact Or.inr (List.mem_flatten.mpr ⟨l, hl', htl⟩)
    simp only [specWalkPages, List.mem_append]
    rcases h' with h' | h'
    · exact Or.inl (specWalkList_mem_of_mem h' q fi hfi)
    · exact Or.inr (ih h' fi hfi)

lemma emittedAt_subwalk {T : GTree} {c : GTree} {path : String} (h : EmittedAt T c path) :
    ∀ fi ∈ specWalkOne c path, fi ∈ specWalkPages (GTree.pages T) "" := by
  induction h with
  | root hmem => exact fun fi hfi => specWalkPages_mem_of_mem hmem "" fi hfi
  | @child p pp c' hp hfold hmem ihp =>
    intro fi hfi
    apply ihp
    have h1 : fi ∈ specWalkPages (GTree.pages p) (joinPath pp (GTree.info p).name) :=
      specWalkPages_mem_of_mem hmem _ fi hfi
    cases p with
    | node info pages =>
      simp only [GTree.info] at hfold h1
      simp only [GTree.pages] at h1
      simp only [specWalkOne]
      rw [if_pos hfold]
      exact List.mem_cons_of_mem _ h1

lemma emittedAt_mem {T : GTree} {c : GTree} {path : String} (h : EmittedAt T c path) :
    mkFileInfo (GTree.info c) path ∈ specWalkPages (GTree.pages T) "" :=
  emittedAt_subwalk h _ (specWalkOne_head c path)

lemma specWalk_sound (T : GTree) : ∀ (n : Nat),
    (∀ (ts : List GTree) (q : String), sizeOf ts ≤ n →
      (∀ t ∈ ts, EmittedAt T t q) →
      ∀ fi ∈ specWalkList ts q,
        ∃ c path, EmittedAt T c path ∧ fi = mkFileInfo (GTree.info c) path) ∧
    (∀ (ps : List (List GTree)) (q : String), sizeOf ps ≤ n →
      (∀ t ∈ ps.flatten, EmittedAt T t q) →
      ∀ fi ∈ specWalkPages ps q,
        ∃ c path, EmittedAt T c path ∧ fi = mkFileInfo (GTree.info c) path) := by
  intro n
  induction n with
  | zero =>
    constructor
    · intro ts q hsz
      exact absurd hsz (by have := list_sizeOf_pos ts; omega)
    · intro ps q hsz
      exact absurd hsz (by have := list_sizeOf_pos ps; omega)
  | succ n ihn =>
    obtain ⟨ihL, ihP⟩ := ihn
    constructor
    · intro ts q hsz hg fi hfi
      cases ts with
      | nil => simp [specWalkList] at hfi
      | cons t ts' =>
        have hszc : sizeOf (t :: ts') = 1 + sizeOf t + sizeOf ts' := by simp_arith
        simp only [specWalkList, List.mem_append] at hfi
        rcases hfi with hfi | hfi
        · cases t with
          | node info pages =>
            have hsz2 : sizeOf (GTree.node info pages) = 1 + sizeOf info + sizeOf pages := by
              simp_arith
            by_cases hfold : info.mimeType = folderMime
            · simp only [specWalkOne] at hfi
              rw [if_pos hfold] at hfi
              rcases List.mem_cons.mp hfi with rfl | hfi
              · exact ⟨GTree.node info pages, q, hg _ (List.mem_cons_self _ _), by
                  simp [GTree.info]⟩
              · refine ihP pages (joinPath q info.name) ?_ ?_ fi hfi
                · have h1 := gfile_sizeOf_pos info
                  have h2 := list_sizeOf_pos ts'
                  omega
                · intro s hs
                  exact EmittedAt.child (hg _ (List.mem_cons_self _ _)) hfold hs
            · simp only [specWalkOne] at hfi
              rw [if_neg hfold] at hfi
              rcases List.mem_singleton.mp hfi with rfl
              exact ⟨GTree.node info pages, q, hg _ (List.mem_cons_self _ _), by
                simp [GTree.info]⟩
        · refine ihL ts' q ?_ (fun s hs => hg s (List.mem_cons_of_mem _ hs)) fi hfi
          have h1 := gtree_sizeOf_pos t
          omega
    · intro ps q hsz hg fi hfi
      cases ps with
      | nil => simp [specWalkPages] at hfi
      | cons pg ps' =>
        have hszc : sizeOf (pg :: ps') = 1 + sizeOf pg + sizeOf ps' := by simp_arith
        simp only [specWalkPages, List.mem_append] at hfi
        rcases hfi with hfi | hfi
        · refine ihL pg q ?_ ?_ fi hfi
          · have h2 := list_sizeOf_pos ps'
            omega
          · intro s hs
            exact hg s (List.mem_flatten.mpr ⟨pg, List.mem_cons_self _ _, hs⟩)
        · refine ihP ps' q ?_ ?_ fi hfi
          · have h1 := list_sizeOf_pos pg
            omega
          · intro s hs
            rcases List.mem_flatten.mp hs with ⟨l, hl, hsl⟩
            exact hg s (List.mem_flatten.mpr ⟨l, List.mem_cons_of_mem _ hl, hsl⟩)

/-- C4 (confirmed): for a hierarchy served faithfully by the drive and enough
fuel, the successful walk output corresponds exactly to the nodes of the
hierarchy at the paths fixed by their actual ancestor chains (`EmittedAt`):
every output entry is the entry of some node emitted at its chain path
(soundness) and every node's entry occurs in the output at its chain path
(completeness); in particular every direct child of the scan root is emitted
with the empty path and, transitively at any depth, every child of a folder
node whose own entry sits at path `pp` is emitted at `pp` joined with that
folder's name by a slash with no leading separator. -/
theorem c4_path_invariant (D : Drive) (T : GTree) (fuel : Nat) (out : List FileInfo)
    (hm : DriveMatches D T)
    (hf : 1 + sizeOf (GTree.pages T) ≤ fuel)
    (hrun : listFilesGo D fuel (GTree.info T).id "" 0 = .ok out) :
    (∀ fi ∈ out, ∃ c path, EmittedAt T c path ∧ fi = mkFileInfo (GTree.info c) path) ∧
    (∀ c path, EmittedAt T c path → mkFileInfo (GTree.info c) path ∈ out) ∧
    (∀ c ∈ (GTree.pages T).flatten, mkFileInfo (GTree.info c) "" ∈ out) ∧
    (∀ p pp, EmittedAt T p pp → (GTree.info p).mimeType = folderMime →
      ∀ c ∈ (GTree.pages p).flatten,
        mkFileInfo (GTree.info c) (joinPath pp (GTree.info p).name) ∈ out) := by
  have hout : out = specWalkPages (GTree.pages T) "" := by
    cases T with
    | node info pages =>
      have h := walk_eq_spec fuel D info pages "" 0 hm
        (by simp only [List.drop_zero]; simpa [GTree.pages] using hf)
      simp only [List.drop_zero] at h
      simp only [GTree.info] at hrun
      rw [h] at hrun
      simp only [GTree.pages]
      exact ((Except.ok.injEq _ _).mp hrun).symm
  subst hout
  refine ⟨?_, ?_, ?_, ?_⟩
  · intro fi hfi
    exact (specWalk_sound T (sizeOf (GTree.pages T))).2 (GTree.pages T) "" (le_refl _)
      (fun t ht => EmittedAt.root ht) fi hfi
  · intro c path h
    exact emittedAt_mem h
  · intro c hc
    exact emittedAt_mem (EmittedAt.root hc)
  · intro p pp hp hfold c hc
    exact emittedAt_mem (EmittedAt.child hp hfold hc)

/-- Witness for C4 at the sample hierarchy: `fileA` is a direct child of the
scan root and its entry carries the empty path; the sub-folder `sub` is
emitted at the empty path, and its child `fileD` is emitted at the parent's
path joined with the parent's name, `joinPath "" "sub" = "sub"`. -/
theorem c4_witness :
    DriveMatches dW TW ∧
    1 + sizeOf (GTree.pages TW) ≤ 100000000 ∧
    listFilesGo dW 100000000 (GTree.info TW).id "" 0 = .ok outW ∧
    mkFileInfo (GTree.info tA) "" ∈ outW ∧
    mkFileInfo (GTree.info tD) (joinPath "" (GTree.info tB).name) ∈ outW := by
  have hmemA : tA ∈ (GTree.pages TW).flatten := by simp [TW, GTree.pages]
  have hmemB : tB ∈ (GTree.pages TW).flatten := by simp [TW, GTree.pages]
  have hmemD : tD ∈ (GTree.pages tB).flatten := by simp [tB, GTree.pages]
  have h := c4_path_invariant dW TW 100000000 outW dW_matches (by decide) (by decide)
  exact ⟨dW_matches, by decide, by decide,
    h.2.2.1 tA hmemA,
    h.2.2.2 tB "" (EmittedAt.root hmemB) (by decide) tD hmemD⟩

/-- C2 counterexample: over the sample drive, the walk issues the listing
request for the child folder `idB` (found on page 0 of the root listing)
before it requests page 1 of the root folder — the request trace is
`[("r", 0), ("idB", 0), ("r", 1)]` — so the root folder's pagination is not
exhausted before the walker descends into a child, contrary to the claim. -/
theorem c2_counterexample :
    (listTrace dW 10 "r" "" 0).1 = [("r", 0), ("idB", 0), ("r", 1)] ∧
    List.indexOf ("idB", 0) (listTrace dW 10 "r" "" 0).1 <
      List.indexOf ("r", 1) (listTrace dW 10 "r" "" 0).1 :=
  ⟨rfl, by decide⟩

/-- C2 (corrected): the walker descends into a child folder as soon as the
child is encountered on a page, before requesting the folder's next page, so
pages are not drained before descent; the pagination is nevertheless
exhausted: in every walk that completes successfully, every page reachable
through the chain of continuation tokens of the listed folder is requested
(its request appears in the trace). -/
theorem c2_pagination_exhausted_interleaved (D : Drive) (fuel : Nat) (fid path : String)
    (k : Nat)
    (hok : (listTrace D fuel fid path k).2 = true)
    (j : Nat) (hkj : k ≤ j)
    (hchain : ∀ i, k ≤ i → i < j → ∃ fs, D.pages fid i = ListResp.ok fs true) :
    (fid, j) ∈ (listTrace D fuel fid path k).1 :=
  listTrace_chain_mem fuel D fid path k hok j hkj hchain

/-- Witness for C2's amended statement: in the successful concrete walk the
second root page `("r", 1)` is indeed requested. -/
theorem c2_witness :
    (listTrace dW 10 "r" "" 0).2 = true ∧ (0 : Nat) ≤ 1 ∧
    ("r", 1) ∈ (listTrace dW 10 "r" "" 0).1 :=
  ⟨rfl, Nat.zero_le 1,
    c2_pagination_exhausted_interleaved dW 10 "r" "" 0 rfl 1 (Nat.zero_le 1)
      (fun i h1 h2 => by
        have hi : i = 0 := by omega
        subst hi
        exact ⟨[gA, gB], rfl⟩)⟩
